import Mathlib

/-!
Verification development for the markdown table editor (`src/script.js`).

Strings are modelled as `List Char`; the JavaScript string operations used by
the program (`trim`, `split`, `includes`, `Array.prototype.join`, index
accesses, `shift`/`pop`) are embedded as executable Lean functions on
`List Char`, and the editor's mutable state (`selectedRow`, `selectedColumn`,
`isDragMode`, `draggedSrcColIndex`, `swapInProgress`, plus the DOM table) is
embedded as an explicit `EditorState` record threaded through the handlers.
-/

/-- A table cell's text, as a list of characters. -/
abbrev Cell := List Char

/-- JavaScript whitespace as used by `String.prototype.trim` and the `\s`
character class, restricted to the ASCII range. -/
def isWs (c : Char) : Bool :=
  c = ' ' || c = '\t' || c = '\n' || c = '\r' || c = '\x0b' || c = '\x0c'

/-- Drop leading whitespace. -/
def trimLeft (s : List Char) : List Char := s.dropWhile isWs

/-- Drop trailing whitespace. -/
def trimRight (s : List Char) : List Char := (s.reverse.dropWhile isWs).reverse

/-- JavaScript `s.trim()`. -/
def jsTrim (s : List Char) : List Char := trimRight (trimLeft s)

/-- JavaScript `s.split(sep)` for a single-character separator: always returns
a non-empty list of (possibly empty) chunks. -/
def splitOnChar (sep : Char) : List Char → List (List Char)
  | [] => [[]]
  | c :: cs =>
    if c = sep then [] :: splitOnChar sep cs
    else
      match splitOnChar sep cs with
      | [] => [[c]]
      | r :: rs => (c :: r) :: rs

/-- JavaScript `arr.join(sep)` on a list of strings. -/
def joinSep (sep : List Char) : List (List Char) → List Char
  | [] => []
  | [c] => c
  | c :: c2 :: cs => c ++ sep ++ joinSep sep (c2 :: cs)

/-- Characters allowed in the body of the separator regex
`^\s*\|[\s\-\|:]+\|\s*$`: whitespace, dashes, pipes and colons. -/
def sepBodyChar (c : Char) : Bool :=
  isWs c || c = '-' || c = '|' || c = ':'

/-- JS `line.match(/^\s*\|[\s\-\|:]+\|\s*$/) !== null`: after stripping the
surrounding whitespace matched by the two `\s*` anchor groups, the string must
be a pipe, then at least one character among whitespace/dash/pipe/colon, then
a pipe. -/
def isSeparatorLine (s : List Char) : Bool :=
  let t := jsTrim s
  decide (3 ≤ t.length) && t.head? == some '|' && t.getLast? == some '|'
    && (t.drop 1).dropLast.all sepBodyChar

/-- JS `if (cells[0] === '') cells.shift();` -/
def stripLeadingEmpty : List Cell → List Cell
  | [] :: rest => rest
  | cs => cs

/-- JS `if (cells[cells.length - 1] === '') cells.pop();` -/
def stripTrailingEmpty (cells : List Cell) : List Cell :=
  if cells.getLast? == some ([] : Cell) then cells.dropLast else cells

/-- JS `line.split('|').map(cell => cell.trim())` followed by removal of the
empty first/last chunks produced by a leading/trailing pipe. -/
def parseCells (line : List Char) : List Cell :=
  stripTrailingEmpty (stripLeadingEmpty ((splitOnChar '|' line).map jsTrim))

/-- The `for` loop of `markdownToTable`, carrying the absolute line index `i`:
a line is skipped when (after trimming) it is empty or has no pipe, or when it
sits at index 1 and matches the separator pattern; every other line is split
into cells and retained. -/
def parseLines : Nat → List (List Char) → List (List Cell)
  | _, [] => []
  | i, l :: ls =>
    let line := jsTrim l
    if line.isEmpty || !(line.contains '|') then
      parseLines (i + 1) ls
    else if i = 1 && isSeparatorLine line then
      parseLines (i + 1) ls
    else
      parseCells line :: parseLines (i + 1) ls

/-- JS `markdownToTable(markdown)`: `null` becomes `none`.  The result is the
list of retained rows; the renderer treats the first row as the header. -/
def markdownToTable (markdown : List Char) : Option (List (List Cell)) :=
  let lines := splitOnChar '\n' (jsTrim markdown)
  if lines.length < 2 then none
  else
    let rows := parseLines 0 lines
    if rows.length > 0 then some rows else none

/-- The canonical grid state: the header row and the body rows, as rendered
into `thead`/`tbody` by `renderTable`. -/
structure Table where
  header : List Cell
  rows : List (List Cell)
deriving DecidableEq, Repr

/-- One output line `'| ' + cellTexts.join(' | ') + ' |\n'`. -/
def renderCellsLine (cells : List Cell) : List Char :=
  ['|', ' '] ++ joinSep [' ', '|', ' '] cells ++ [' ', '|', '\n']

/-- The synthesized separator row: one `---` per header column. -/
def sepCells (n : Nat) : List Cell := List.replicate n ['-', '-', '-']

/-- JS `tableToMarkdown()`: header line and separator line when the header has at
least one cell, then one line per body row, rows with zero cells skipped. -/
def tableToMarkdown (t : Table) : List Char :=
  (if t.header.length = 0 then [] else
    renderCellsLine t.header ++ renderCellsLine (sepCells t.header.length))
  ++ (t.rows.map (fun r => if r.length = 0 then [] else renderCellsLine r)).flatten

/-- The editor's mutable state: the grid plus the selection and drag fields of
`MarkdownTableEditor`.  `selectedRow` stores the value set by the click
handler, namely the body-row index plus one (the `+ 1 // for header offset`).
-/
structure EditorState where
  table : Table
  selectedRow : Option Nat
  selectedColumn : Option Nat
  isDragMode : Bool
  draggedSrcColIndex : Option Nat
  swapInProgress : Bool
deriving DecidableEq, Repr

/-- JS `clearSelections()`: both selection fields become `null`. -/
def clearSelections (s : EditorState) : EditorState :=
  { s with selectedRow := none, selectedColumn := none }

/-- JS `toggleMode()`: flips `isDragMode` and calls `clearSelections()`; the
remaining statements only manage DOM attributes and CSS classes. -/
def toggleMode (s : EditorState) : EditorState :=
  clearSelections { s with isDragMode := !s.isDragMode }

/-- JS `addRow()`: appends one body row of `colCount` empty cells, where
`colCount` is the number of header cells. -/
def addRow (s : EditorState) : EditorState :=
  { s with table := { s.table with
      rows := s.table.rows ++ [List.replicate s.table.header.length ([] : Cell)] } }

/-- JS `addColumn()`: appends a header cell `Header ${colCount + 1}` and one
empty cell to every body row. -/
def addColumn (s : EditorState) : EditorState :=
  let c := s.table.header.length
  { s with table :=
      { header := s.table.header ++ [("Header ".toList ++ (Nat.repr (c + 1)).toList)],
        rows := s.table.rows.map (fun r => r ++ [([] : Cell)]) } }

/-- JS `deleteRow()`: with a selection in selection mode, removes the body row at
`selectedRow - 1` when that row exists (JavaScript `rows[selectedRow - 1]` is
truthy exactly when `1 ≤ selectedRow` and `selectedRow - 1` is in range) and
clears the selections; otherwise falls back to deleting the last body row. -/
def deleteRow (s : EditorState) : EditorState :=
  match s.selectedRow, s.isDragMode with
  | some sr, false =>
    if 1 ≤ sr ∧ sr - 1 < s.table.rows.length then
      clearSelections
        { s with table := { s.table with rows := s.table.rows.eraseIdx (sr - 1) } }
    else s
  | _, _ =>
    if s.table.rows.isEmpty then s
    else { s with table := { s.table with rows := s.table.rows.dropLast } }

/-- JS `deleteColumn()` on a grid whose header row exists (the state of every
rendered table): refuses when at most one header cell remains; with a
selection in selection mode, removes the header cell at `selectedColumn` when
it exists and the corresponding cell of every body row that has one, then
clears the selections; otherwise removes the last cell of the header and of
every non-empty body row.  On the cleared grid (`thead` without a `tr`) the
source instead dereferences the null `headerRow` and throws; that state is
modelled separately by `deleteColumnDom` below, which agrees with this
function whenever the header row is present (`deleteColumnDom_agrees`). -/
def deleteColumn (s : EditorState) : EditorState :=
  match s.selectedColumn, s.isDragMode with
  | some sc, false =>
    if s.table.header.length ≤ 1 then s
    else if sc < s.table.header.length then
      clearSelections
        { s with table :=
            { header := s.table.header.eraseIdx sc,
              rows := s.table.rows.map (fun r => r.eraseIdx sc) } }
    else s
  | _, _ =>
    if s.table.header.length ≤ 1 then s
    else
      { s with table :=
          { header := s.table.header.dropLast,
            rows := s.table.rows.map (fun r => r.dropLast) } }

/-- The per-row body of the swap loop in `handleDrop`: when the row has cells
at both indices their contents are exchanged, otherwise the row is untouched.
-/
def swapCellsInRow (i j : Nat) (r : List Cell) : List Cell :=
  match r.get? i, r.get? j with
  | some a, some b => (r.set i b).set j a
  | _, _ => r

/-- The swap loop of `handleDrop` over `this.editableTable.rows`: the header
row and every body row. -/
def swapTable (i j : Nat) (t : Table) : Table :=
  { header := swapCellsInRow i j t.header,
    rows := t.rows.map (swapCellsInRow i j) }

/-- JS `handleDrop(e, targetIndex)`: ignored outside drag mode, when
`swapInProgress` is set, when no source index is recorded, or when the target
equals the source; otherwise swaps the two columns' contents in every row of
the table (header row included) and, via the `finally` block, resets
`draggedSrcColIndex` and `swapInProgress`. -/
def handleDrop (targetIndex : Nat) (s : EditorState) : EditorState :=
  if !s.isDragMode then s
  else if s.swapInProgress then s
  else
    match s.draggedSrcColIndex with
    | none => s
    | some src =>
      if targetIndex = src then s
      else
        { s with
          table := swapTable src targetIndex s.table,
          draggedSrcColIndex := none,
          swapInProgress := false }

/-- JS `handleDragStart(e, index)`: in drag mode on a draggable header, records
the source column index. -/
def handleDragStart (index : Nat) (s : EditorState) : EditorState :=
  if s.isDragMode then { s with draggedSrcColIndex := some index } else s

/-- JS `handleDragEnd(e)`: always clears the recorded source index. -/
def handleDragEnd (s : EditorState) : EditorState :=
  { s with draggedSrcColIndex := none }

/-- Where a click lands: a `td` in the body (with the 0-based index of its row
among `tbody`'s children), a `th` in the header (with its 0-based cell index),
or outside any cell. -/
inductive ClickTarget
  | bodyCell (rowIdx : Nat)
  | headerCell (colIdx : Nat)
  | outside
deriving DecidableEq, Repr

/-- The click listener installed by `initSelectionSystem`: inert in drag mode;
a body cell stores `rowIndex + 1` in `selectedRow` after clearing, a header
cell stores its index in `selectedColumn` after clearing, anything else just
clears. -/
def handleClick (e : ClickTarget) (s : EditorState) : EditorState :=
  if s.isDragMode then s
  else
    match e with
    | .bodyCell k => { clearSelections s with selectedRow := some (k + 1) }
    | .headerCell c => { clearSelections s with selectedColumn := some c }
    | .outside => clearSelections s

/-- JS `parseMarkdown()` as seen by the grid: blank input clears the table;
otherwise a successful parse replaces the grid and a failed parse leaves the
previously rendered grid untouched. -/
def parseMarkdown (input : List Char) (grid : List (List Cell)) :
    List (List Cell) :=
  if (jsTrim input).isEmpty then []
  else
    match markdownToTable input with
    | some t => t
    | none => grid

/-- A state in the middle of a drag: drag mode, a recorded source column, and
a (stale) row selection. -/
def dragStateExample : EditorState :=
  { table := ⟨[['A'], ['B']], [[['1'], ['2']]]⟩,
    selectedRow := some 1, selectedColumn := none,
    isDragMode := true, draggedSrcColIndex := some 0, swapInProgress := false }

/-- Claim C5 counterexample: after `toggleMode()` from a state with a recorded
drag source, the selection fields are cleared but `draggedSrcColIndex` is
still set, so the claim that any in-flight drag state is cleared fails. -/
theorem toggleMode_keeps_drag_source :
    ¬ ((toggleMode dragStateExample).selectedRow = none
        ∧ (toggleMode dragStateExample).selectedColumn = none
        ∧ (toggleMode dragStateExample).draggedSrcColIndex = none) := by
  decide

/-- Claim C5 (amended): for every prior state, `toggleMode()` results in
`Selection = None` (both selection fields `null`) and flips the mode, but it
leaves the recorded drag source index and the `swapInProgress` flag
unchanged; the drag source is only cleared by `dragEnd` or `drop`. -/
theorem toggleMode_clears_selection_only (s : EditorState) :
    (toggleMode s).selectedRow = none
    ∧ (toggleMode s).selectedColumn = none
    ∧ (toggleMode s).isDragMode = !s.isDragMode
    ∧ (toggleMode s).draggedSrcColIndex = s.draggedSrcColIndex
    ∧ (toggleMode s).swapInProgress = s.swapInProgress := by
  simp [toggleMode, clearSelections]

/-- Claim C7: on a table with exactly one column, `deleteColumn` is a no-op —
both the selected-column branch and the last-column fallback return before
mutating anything, so the column count stays at least one. -/
theorem deleteColumn_single_column_noop (s : EditorState)
    (h : s.table.header.length = 1) : deleteColumn s = s := by
  have h1 : s.table.header.length ≤ 1 := by omega
  unfold deleteColumn
  cases s.selectedColumn <;> cases s.isDragMode <;> simp [h1]

/-- A one-column table with a column selected in selection mode. -/
def oneColState : EditorState :=
  { table := ⟨[['A']], [[['x']]]⟩,
    selectedRow := none, selectedColumn := some 0,
    isDragMode := false, draggedSrcColIndex := none, swapInProgress := false }

/-- Witness for C7 at a concrete one-column table. -/
theorem deleteColumn_single_column_noop_witness :
    oneColState.table.header.length = 1 ∧ deleteColumn oneColState = oneColState :=
  ⟨by decide, deleteColumn_single_column_noop oneColState (by decide)⟩

/-- A one-body-row table whose stored `selectedRow` (5) is out of range. -/
def staleRowState : EditorState :=
  { table := ⟨[['A']], [[['x']]]⟩,
    selectedRow := some 5, selectedColumn := none,
    isDragMode := false, draggedSrcColIndex := none, swapInProgress := false }

/-- The editor state refined with the one DOM distinction `deleteColumn` is
sensitive to: whether `thead` contains a header `tr` at all.  `renderTable`
always creates the header row (it only runs on a non-empty parse result),
while `clearTable()` — the blank-input path of `parseMarkdown` — leaves
`thead` empty and does NOT touch the selection fields.  `headerRow = none`
models that cleared state; `headerRow = some cells` models a present header
row holding `cells`. -/
structure DomEditorState where
  headerRow : Option (List Cell)
  bodyRows : List (List Cell)
  selectedRow : Option Nat
  selectedColumn : Option Nat
  isDragMode : Bool
deriving DecidableEq, Repr

/-- JS `clearTable()`: resets the table to `<thead></thead><tbody></tbody>`,
removing the header row and all body rows; the selection fields are left as
they are. -/
def clearTableDom (s : DomEditorState) : DomEditorState :=
  { s with headerRow := none, bodyRows := [] }

/-- JS `deleteColumn()` on the refined state, with `none` signalling the
uncaught TypeError: when `thead` holds no `tr`, `headerRow` is `null` and both
branches dereference it (`headerRow.querySelectorAll` at script.js lines 293
and 311) before any defensive check, so the handler throws instead of
returning — unlike `addRow`, which guards with `if (!headerRow) return`.
With a header row present the behavior coincides with `deleteColumn`. -/
def deleteColumnDom (s : DomEditorState) : Option DomEditorState :=
  match s.headerRow with
  | none => none
  | some header =>
    match s.selectedColumn, s.isDragMode with
    | some sc, false =>
      if header.length ≤ 1 then some s
      else if sc < header.length then
        some { s with headerRow := some (header.eraseIdx sc),
                      bodyRows := s.bodyRows.map (fun r => r.eraseIdx sc),
                      selectedRow := none, selectedColumn := none }
      else some s
    | _, _ =>
      if header.length ≤ 1 then some s
      else some { s with headerRow := some header.dropLast,
                         bodyRows := s.bodyRows.map (fun r => r.dropLast) }

lemma deleteColumnDom_agrees (s : EditorState) :
    deleteColumnDom ⟨some s.table.header, s.table.rows, s.selectedRow,
        s.selectedColumn, s.isDragMode⟩
      = some ⟨some (deleteColumn s).table.header, (deleteColumn s).table.rows,
          (deleteColumn s).selectedRow, (deleteColumn s).selectedColumn,
          (deleteColumn s).isDragMode⟩ := by
  obtain ⟨⟨h, rows⟩, sr, sc, dm, di, sw⟩ := s
  cases sc <;> cases dm <;>
    simp only [deleteColumnDom, deleteColumn, clearSelections] <;>
      split_ifs <;> rfl

/-- A rendered one-column grid with column 0 selected in edit mode; blanking
the textarea from here runs `clearTable`, whose result keeps the stale
column selection over an empty grid. -/
def selectedColState : DomEditorState :=
  { headerRow := some [['A']], bodyRows := [[['x']]],
    selectedRow := none, selectedColumn := some 0, isDragMode := false }

/-- Claim C8: the code crashes where the claim requires a defensive no-op.
Clearing the grid retains the stale column selection, and `deleteColumn` then
dereferences the null header row and throws (`none`) before any index check —
neither a no-op nor a clearing of the selection — even though the sibling
`addRow` has exactly the missing `if (!headerRow) return` guard.  Moreover
even the non-crashing stale paths retain the stale selection: `deleteRow` with
stored index 5 on a one-body-row table leaves the whole state, selection
included, unchanged. -/
theorem deleteColumn_crashes_on_cleared_grid :
    (clearTableDom selectedColState).selectedColumn = some 0
    ∧ deleteColumnDom (clearTableDom selectedColState) = none
    ∧ deleteRow staleRowState = staleRowState
    ∧ (deleteRow staleRowState).selectedRow = some 5 := by
  decide

/-- Claim C6: from any at-rest state (`swapInProgress` false, as it is between
event deliveries), delivering `drop(targetIndex)` twice in immediate
succession equals delivering it once — the first delivery performs the column
swap and clears the recorded source, so the second is a silent no-op — and
`swapInProgress` is false again on every exit path of the handler. -/
theorem handleDrop_once (s : EditorState) (t : Nat)
    (h : s.swapInProgress = false) :
    handleDrop t (handleDrop t s) = handleDrop t s
    ∧ (handleDrop t s).swapInProgress = false
    ∧ (∀ src, s.isDragMode = true → s.draggedSrcColIndex = some src → t ≠ src →
        (handleDrop t s).table = swapTable src t s.table
        ∧ (handleDrop t s).draggedSrcColIndex = none) := by
  obtain ⟨tab, sr, sc, dm, di, sw⟩ := s
  simp only at h
  subst h
  cases dm with
  | false => simp [handleDrop]
  | true =>
    cases di with
    | none => simp [handleDrop]
    | some src =>
      by_cases ht : t = src
      · simp [handleDrop, ht]
      · simp [handleDrop, ht]

/-- A drag-mode state with source column 0 recorded, ready for a drop. -/
def dropReadyState : EditorState :=
  { table := ⟨[['A'], ['B']], [[['1'], ['2']]]⟩,
    selectedRow := none, selectedColumn := none,
    isDragMode := true, draggedSrcColIndex := some 0, swapInProgress := false }

/-- Witness for C6: a concrete double drop on `dropReadyState` performs the
swap exactly once. -/
theorem handleDrop_once_witness :
    handleDrop 1 (handleDrop 1 dropReadyState) = handleDrop 1 dropReadyState
    ∧ (handleDrop 1 dropReadyState).table = swapTable 0 1 dropReadyState.table
    ∧ (handleDrop 1 dropReadyState).swapInProgress = false :=
  ⟨(handleDrop_once dropReadyState 1 rfl).1,
   ((handleDrop_once dropReadyState 1 rfl).2.2 0 rfl rfl (by decide)).1,
   (handleDrop_once dropReadyState 1 rfl).2.1⟩

/-- Claim C9: in edit mode, clicking a body cell of row `k` (0-based among
body rows) stores `k + 1` in `selectedRow` and clears `selectedColumn`; the
stored selection denotes body row `k` — a subsequent `deleteRow` removes
exactly row `k` — and after any click at most one of the two selection fields
is set. -/
theorem click_body_selects_row (s : EditorState) (k : Nat)
    (hm : s.isDragMode = false) :
    (handleClick (.bodyCell k) s).selectedRow = some (k + 1)
    ∧ (handleClick (.bodyCell k) s).selectedColumn = none
    ∧ (k < s.table.rows.length →
        (deleteRow (handleClick (.bodyCell k) s)).table.rows
          = s.table.rows.eraseIdx k)
    ∧ (∀ e : ClickTarget,
        (handleClick e s).selectedRow = none
          ∨ (handleClick e s).selectedColumn = none) := by
  refine ⟨by simp [handleClick, hm, clearSelections],
          by simp [handleClick, hm, clearSelections], ?_, ?_⟩
  · intro hk
    simp only [handleClick, hm]
    simp only [Bool.false_eq_true, if_false]
    unfold deleteRow
    simp [clearSelections, hm, Nat.add_sub_cancel, hk]
  · intro e
    cases e <;> simp [handleClick, hm, clearSelections]

/-- A two-body-row table in edit mode with no selection. -/
def clickReadyState : EditorState :=
  { table := ⟨[['A'], ['B']], [[['1'], ['2']], [['3'], ['4']]]⟩,
    selectedRow := none, selectedColumn := none,
    isDragMode := false, draggedSrcColIndex := none, swapInProgress := false }

/-- Witness for C9: clicking body row 0 of `clickReadyState` selects it, and
deleting then removes exactly that row. -/
theorem click_body_selects_row_witness :
    (handleClick (.bodyCell 0) clickReadyState).selectedRow = some 1
    ∧ (handleClick (.bodyCell 0) clickReadyState).selectedColumn = none
    ∧ (deleteRow (handleClick (.bodyCell 0) clickReadyState)).table.rows
        = [[['3'], ['4']]] :=
  ⟨(click_body_selects_row clickReadyState 0 rfl).1,
   (click_body_selects_row clickReadyState 0 rfl).2.1,
   ((click_body_selects_row clickReadyState 0 rfl).2.2.1 (by decide)).trans
     (by decide)⟩

/-- Claim C10: a successful drop swaps the two columns' contents independently
per row — every row is rewritten by `swapCellsInRow`, which leaves any row
lacking a cell at either index entirely unchanged — and the handler always
completes, clearing the drag state, even on tables whose rows have differing
lengths. -/
theorem handleDrop_per_row_guard (s : EditorState) (src t : Nat)
    (hm : s.isDragMode = true) (hw : s.swapInProgress = false)
    (hs : s.draggedSrcColIndex = some src) (ht : t ≠ src) :
    (handleDrop t s).table.rows = s.table.rows.map (swapCellsInRow src t)
    ∧ (∀ r ∈ s.table.rows, ¬(src < r.length ∧ t < r.length) →
        swapCellsInRow src t r = r)
    ∧ (handleDrop t s).draggedSrcColIndex = none
    ∧ (handleDrop t s).swapInProgress = false := by
  obtain ⟨tab, sr, sc, dm, di, sw⟩ := s
  simp only at hm hw hs
  subst hm; subst hw; subst hs
  refine ⟨by simp [handleDrop, ht, swapTable], ?_,
          by simp [handleDrop, ht], by simp [handleDrop, ht]⟩
  intro r _ hmiss
  unfold swapCellsInRow
  rcases hi : r.get? src with _ | a
  · simp
  · rcases hj : r.get? t with _ | b
    · simp
    · exfalso
      obtain ⟨h1, -⟩ := List.get?_eq_some.mp hi
      obtain ⟨h2, -⟩ := List.get?_eq_some.mp hj
      exact hmiss ⟨h1, h2⟩

/-- A ragged table: the first body row has one cell, the second has three. -/
def raggedDropState : EditorState :=
  { table := ⟨[['A'], ['B'], ['C']], [[['1']], [['x'], ['y'], ['z']]]⟩,
    selectedRow := none, selectedColumn := none,
    isDragMode := true, draggedSrcColIndex := some 0, swapInProgress := false }

/-- Witness for C10 on the ragged table: dropping column 0 onto column 2
swaps the full-length row, leaves the short row untouched, and completes. -/
theorem handleDrop_per_row_guard_witness :
    (handleDrop 2 raggedDropState).table.rows
      = raggedDropState.table.rows.map (swapCellsInRow 0 2)
    ∧ swapCellsInRow 0 2 [['1']] = [['1']]
    ∧ (handleDrop 2 raggedDropState).table.rows = [[['1']], [['z'], ['y'], ['x']]]
    ∧ (handleDrop 2 raggedDropState).swapInProgress = false :=
  ⟨(handleDrop_per_row_guard raggedDropState 0 2 rfl rfl rfl (by decide)).1,
   (handleDrop_per_row_guard raggedDropState 0 2 rfl rfl rfl (by decide)).2.1
      [['1']] (by decide) (by decide),
   by decide,
   (handleDrop_per_row_guard raggedDropState 0 2 rfl rfl rfl
      (by decide)).2.2.2⟩



/-- The five structural operations quantified over by claim C2. -/
inductive EOp
  | addRowOp
  | addColumnOp
  | deleteRowOp
  | deleteColumnOp
  | dropOp (target : Nat)
deriving DecidableEq, Repr

/-- Dispatch one structural operation on the editor state. -/
def applyOp (s : EditorState) : EOp → EditorState
  | .addRowOp => addRow s
  | .addColumnOp => addColumn s
  | .deleteRowOp => deleteRow s
  | .deleteColumnOp => deleteColumn s
  | .dropOp t => handleDrop t s

/-- Apply a sequence of structural operations from left to right. -/
def applyOps (s : EditorState) (ops : List EOp) : EditorState :=
  ops.foldl applyOp s

/-- The structural invariant: every body row has exactly as many cells as the
header. -/
def uniformTable (t : Table) : Prop :=
  ∀ r ∈ t.rows, r.length = t.header.length

instance (t : Table) : Decidable (uniformTable t) := by
  unfold uniformTable
  infer_instance

lemma length_swapCellsInRow (i j : Nat) (r : List Cell) :
    (swapCellsInRow i j r).length = r.length := by
  unfold swapCellsInRow
  rcases r.get? i with _ | a <;> rcases r.get? j with _ | b <;> simp

lemma deleteRow_header_and_rows (s : EditorState) :
    (deleteRow s).table.header = s.table.header
    ∧ ∀ r ∈ (deleteRow s).table.rows, r ∈ s.table.rows := by
  unfold deleteRow
  split
  · split
    · exact ⟨rfl, fun r hr => (List.eraseIdx_sublist _ _).subset hr⟩
    · exact ⟨rfl, fun r hr => hr⟩
  · split
    · exact ⟨rfl, fun r hr => hr⟩
    · exact ⟨rfl, fun r hr => (List.dropLast_sublist _).subset hr⟩

lemma deleteColumn_uniform (s : EditorState) (h : uniformTable s.table) :
    uniformTable (deleteColumn s).table := by
  unfold deleteColumn
  split
  · split
    · exact h
    · split
      · next sc _ hle hlt =>
        intro r hr
        simp only [clearSelections] at hr ⊢
        obtain ⟨r0, hr0, rfl⟩ := List.mem_map.mp hr
        have hlen := h r0 hr0
        rw [List.length_eraseIdx, List.length_eraseIdx]
        rw [if_pos hlt, if_pos (by omega)]
        omega
      · exact h
  · split
    · exact h
    · intro r hr
      obtain ⟨r0, hr0, rfl⟩ := List.mem_map.mp hr
      have hlen := h r0 hr0
      simp [List.length_dropLast, hlen]

lemma applyOp_uniform (s : EditorState) (op : EOp)
    (h : uniformTable s.table) : uniformTable (applyOp s op).table := by
  cases op with
  | addRowOp =>
    intro r hr
    simp only [applyOp, addRow] at hr ⊢
    rcases List.mem_append.mp hr with h1 | h1
    · exact h r h1
    · simp only [List.mem_singleton] at h1
      subst h1
      simp
  | addColumnOp =>
    intro r hr
    simp only [applyOp, addColumn] at hr ⊢
    obtain ⟨r0, hr0, rfl⟩ := List.mem_map.mp hr
    simp [h r0 hr0]
  | deleteRowOp =>
    intro r hr
    simp only [applyOp] at hr ⊢
    rw [(deleteRow_header_and_rows s).1]
    exact h r ((deleteRow_header_and_rows s).2 r hr)
  | deleteColumnOp =>
    exact deleteColumn_uniform s h
  | dropOp t =>
    have hshape : (handleDrop t s).table = s.table
        ∨ ∃ src, (handleDrop t s).table = swapTable src t s.table := by
      unfold handleDrop
      split
      · exact Or.inl rfl
      · split
        · exact Or.inl rfl
        · split
          · exact Or.inl rfl
          · split
            · exact Or.inl rfl
            · exact Or.inr ⟨_, rfl⟩
    simp only [applyOp]
    rcases hshape with heq | ⟨src, heq⟩
    · rw [heq]; exact h
    · rw [heq]
      intro r hr
      simp only [swapTable] at hr ⊢
      obtain ⟨r0, hr0, rfl⟩ := List.mem_map.mp hr
      rw [length_swapCellsInRow, length_swapCellsInRow]
      exact h r0 hr0

/-- Claim C2: starting from any editor state whose table satisfies the
uniform-row-length invariant, any sequence of `addRow`, `addColumn`,
`deleteRow`, `deleteColumn` and drop (column-swap) operations preserves the
invariant: every row's length still equals the header length, each mutator
having resized all rows within the one operation. -/
theorem ops_preserve_uniform (ops : List EOp) (s : EditorState)
    (h : uniformTable s.table) : uniformTable (applyOps s ops).table := by
  induction ops generalizing s with
  | nil => exact h
  | cons op ops ih => exact ih (applyOp s op) (applyOp_uniform s op h)

/-- A concrete uniform 2-column starting state for the C2 witness. -/
def uniformStartState : EditorState :=
  { table := ⟨[['A'], ['B']], [[['1'], ['2']], [['3'], ['4']]]⟩,
    selectedRow := some 1, selectedColumn := none,
    isDragMode := false, draggedSrcColIndex := none,
    swapInProgress := false }

/-- Witness for C2: a concrete five-operation sequence on a concrete uniform
table keeps the invariant. -/
theorem ops_preserve_uniform_witness :
    uniformTable (applyOps uniformStartState
      [.addColumnOp, .addRowOp, .deleteRowOp, .dropOp 2, .deleteColumnOp]).table :=
  ops_preserve_uniform
    [.addColumnOp, .addRowOp, .deleteRowOp, .dropOp 2, .deleteColumnOp]
    uniformStartState (by decide)

/-- Claim C4: `markdownToTable` returns `null` exactly when the trimmed input
splits into fewer than two raw lines, or when no row survives the filtering
(blank lines and lines without a pipe are skipped); and on a null result the
caller `parseMarkdown` leaves the previously rendered grid untouched. -/
theorem parse_failure_signalling (md : List Char) (grid : List (List Cell)) :
    (markdownToTable md = none ↔
      ((splitOnChar '\n' (jsTrim md)).length < 2
        ∨ parseLines 0 (splitOnChar '\n' (jsTrim md)) = []))
    ∧ ((jsTrim md).isEmpty = false → markdownToTable md = none →
        parseMarkdown md grid = grid) := by
  constructor
  · unfold markdownToTable
    by_cases h2 : (splitOnChar '\n' (jsTrim md)).length < 2
    · simp [h2]
    · simp only [h2, if_false, if_neg h2]
      by_cases h3 : (parseLines 0 (splitOnChar '\n' (jsTrim md))).length > 0
      · have hne := List.length_pos.mp h3
        simp [h3, h2, hne]
      · have h0 : (parseLines 0 (splitOnChar '\n' (jsTrim md))).length = 0 := by
          omega
        have heq := List.length_eq_zero.mp h0
        simp [h3, h2, heq]
  · intro hne hnone
    unfold parseMarkdown
    simp [hne, hnone]

/-- The grid contents rendered before a failing parse. -/
def previousGrid : List (List Cell) := [[['a']]]

/-- Witness for C4: the one-line input `x` fails to parse and the previously
rendered grid survives. -/
theorem parse_failure_signalling_witness :
    parseMarkdown ['x'] previousGrid = previousGrid :=
  (parse_failure_signalling ['x'] previousGrid).2 (by decide) (by decide)

/-- The spec's line-retention rule, stated from the spec's words: a line is
kept as data iff (after trimming) it is non-blank and contains a pipe, except
that the line at original index 1 is dropped when it matches the separator
pattern; a separator-shaped line at any other index is kept. -/
def specKeepsLine (i : Nat) (l : List Char) : Bool :=
  !(jsTrim l).isEmpty && (jsTrim l).contains '|'
    && !(i = 1 && isSeparatorLine (jsTrim l))

lemma parseLines_eq_filterMap (i : Nat) (ls : List (List Char)) :
    parseLines i ls = (List.enumFrom i ls).filterMap fun p =>
      if specKeepsLine p.1 p.2 then some (parseCells (jsTrim p.2)) else none := by
  induction ls generalizing i with
  | nil => simp [parseLines]
  | cons l ls ih =>
    rw [List.enumFrom_cons, List.filterMap_cons]
    unfold parseLines
    by_cases hb : jsTrim l = [] <;>
      by_cases hp : '|' ∈ jsTrim l <;>
        by_cases hi : i = 1 <;>
          by_cases hsep : isSeparatorLine (jsTrim l) = true <;>
            simp [specKeepsLine, hb, hp, hi, hsep, ih]

/-- Claim C3: the parser retains exactly the non-blank pipe-containing lines
except a separator-pattern match at original index 1 (the spec-side
`specKeepsLine` rule); concretely, a separator-shaped line at index 1 is
dropped, a malformed separator at index 1 is kept as a data row, and a
separator-shaped line at index 2 is kept as a data row. -/
theorem separator_only_at_index_one :
    (∀ ls : List (List Char),
      parseLines 0 ls = (List.enum ls).filterMap fun p =>
        if specKeepsLine p.1 p.2 then some (parseCells (jsTrim p.2)) else none)
    ∧ markdownToTable ("| A | B |\n| --- | --- |\n| 1 | 2 |".toList)
        = some [["A".toList, "B".toList], ["1".toList, "2".toList]]
    ∧ markdownToTable ("| A | B |\n| not-a-separator |\n| 1 | 2 |".toList)
        = some [["A".toList, "B".toList], ["not-a-separator".toList],
                ["1".toList, "2".toList]]
    ∧ markdownToTable ("| A |\n| B |\n| --- |".toList)
        = some [["A".toList], ["B".toList], [['-', '-', '-']]] := by
  refine ⟨fun ls => ?_, by decide, by decide, by decide⟩
  have : List.enum ls = List.enumFrom 0 ls := rfl
  rw [this]
  exact parseLines_eq_filterMap 0 ls

/-- A cell as it appears inside an output line: one space either side. -/
def padCell (c : Cell) : Cell := ' ' :: (c ++ [' '])

/-- An output line without its trailing newline. -/
def lineBody (cells : List Cell) : List Char :=
  ['|', ' '] ++ joinSep [' ', '|', ' '] cells ++ [' ', '|']

lemma renderCellsLine_eq (cells : List Cell) :
    renderCellsLine cells = lineBody cells ++ ['\n'] := by
  simp [renderCellsLine, lineBody]

lemma splitOnChar_ne_nil (sep : Char) (s : List Char) : splitOnChar sep s ≠ [] := by
  induction s with
  | nil => simp [splitOnChar]
  | cons c cs ih =>
    unfold splitOnChar
    split
    · simp
    · cases h : splitOnChar sep cs <;> simp

lemma splitOnChar_cons_sep (sep : Char) (ys : List Char) :
    splitOnChar sep (sep :: ys) = [] :: splitOnChar sep ys := by
  simp [splitOnChar]

lemma splitOnChar_append_not_mem (sep : Char) (xs ys : List Char) (h : sep ∉ xs) :
    splitOnChar sep (xs ++ ys) = (splitOnChar sep ys).modifyHead (xs ++ ·) := by
  induction xs with
  | nil =>
    simp only [List.nil_append]
    cases hs : splitOnChar sep ys with
    | nil => exact absurd hs (splitOnChar_ne_nil sep ys)
    | cons r rs => simp [List.modifyHead_cons]
  | cons c cs ih =>
    have hc : ¬(c = sep) := fun hc => h (hc ▸ List.mem_cons_self c cs)
    have hcs : sep ∉ cs := fun hm => h (List.mem_cons_of_mem c hm)
    simp only [List.cons_append]
    conv_lhs => rw [splitOnChar]
    rw [if_neg hc, ih hcs]
    cases hs : splitOnChar sep ys with
    | nil => exact absurd hs (splitOnChar_ne_nil sep ys)
    | cons r rs => simp [List.modifyHead_cons]

lemma splitOnChar_of_not_mem (sep : Char) (xs : List Char) (h : sep ∉ xs) :
    splitOnChar sep xs = [xs] := by
  have h0 := splitOnChar_append_not_mem sep xs [] h
  simpa [splitOnChar] using h0

lemma splitOnChar_joinSep (sep : Char) (ls : List (List Char)) (hne : ls ≠ [])
    (h : ∀ l ∈ ls, sep ∉ l) :
    splitOnChar sep (joinSep [sep] ls) = ls := by
  induction ls with
  | nil => exact absurd rfl hne
  | cons l ls ih =>
    cases ls with
    | nil =>
      simp [joinSep, splitOnChar_of_not_mem sep l (h l (List.mem_cons_self l []))]
    | cons l2 ls2 =>
      have h1 : sep ∉ l := h l (List.mem_cons_self _ _)
      have hrest : ∀ x ∈ l2 :: ls2, sep ∉ x :=
        fun x hx => h x (List.mem_cons_of_mem _ hx)
      rw [show joinSep [sep] (l :: l2 :: ls2)
          = l ++ [sep] ++ joinSep [sep] (l2 :: ls2) from rfl]
      rw [List.append_assoc]
      rw [splitOnChar_append_not_mem sep l _ h1]
      rw [show ([sep] ++ joinSep [sep] (l2 :: ls2))
          = sep :: joinSep [sep] (l2 :: ls2) from rfl]
      rw [splitOnChar_cons_sep, ih (by simp) hrest]
      simp [List.modifyHead_cons]

lemma trimLeft_cons_of_not_ws (a : Char) (s : List Char) (ha : isWs a = false) :
    trimLeft (a :: s) = a :: s := by
  simp [trimLeft, List.dropWhile_cons, ha]

lemma trimRight_concat_ws (s : List Char) (a : Char) (ha : isWs a = true) :
    trimRight (s ++ [a]) = trimRight s := by
  simp [trimRight, List.reverse_append, List.dropWhile_cons, ha]

lemma trimRight_eq_self (s : List Char) (a : Char) (h : s.getLast? = some a)
    (ha : isWs a = false) : trimRight s = s := by
  have hrev : s.reverse.head? = some a := by rw [List.head?_reverse, h]
  cases hs : s.reverse with
  | nil => rw [hs] at hrev; simp at hrev
  | cons b u =>
    rw [hs] at hrev
    simp only [List.head?_cons, Option.some.injEq] at hrev
    subst hrev
    unfold trimRight
    rw [hs, List.dropWhile_cons, if_neg (by simp [ha])]
    rw [← hs, List.reverse_reverse]

lemma jsTrim_concat_newline (X : List Char) (h1 : X.head? = some '|')
    (h2 : X.getLast? = some '|') : jsTrim (X ++ ['\n']) = X := by
  cases X with
  | nil => simp at h1
  | cons b u =>
    simp only [List.head?_cons, Option.some.injEq] at h1
    subst h1
    unfold jsTrim
    rw [List.cons_append, trimLeft_cons_of_not_ws _ _ (by decide)]
    rw [← List.cons_append, trimRight_concat_ws _ _ (by decide)]
    exact trimRight_eq_self _ '|' h2 (by decide)

lemma jsTrim_eq_self (s : List Char) (a b : Char) (h1 : s.head? = some a)
    (ha : isWs a = false) (h2 : s.getLast? = some b) (hb : isWs b = false) :
    jsTrim s = s := by
  cases s with
  | nil => simp at h1
  | cons c u =>
    simp only [List.head?_cons, Option.some.injEq] at h1
    subst h1
    unfold jsTrim
    rw [trimLeft_cons_of_not_ws _ _ ha]
    exact trimRight_eq_self _ b h2 hb

lemma jsTrim_padCell (c : Cell) : jsTrim (padCell c) = jsTrim c := by
  unfold padCell jsTrim trimLeft
  rw [List.dropWhile_cons]
  simp only [show isWs ' ' = true from rfl, if_true]
  rw [List.dropWhile_append]
  by_cases he : (List.dropWhile isWs c).isEmpty = true
  · rw [if_pos he, List.isEmpty_iff.mp he]
    rw [show List.dropWhile isWs [' '] = [] by decide]
  · rw [if_neg he]
    exact trimRight_concat_ws _ ' ' rfl

lemma mem_joinSep (sep : List Char) (ls : List (List Char)) (a : Char)
    (h : a ∈ joinSep sep ls) : a ∈ sep ∨ ∃ l ∈ ls, a ∈ l := by
  induction ls with
  | nil => simp [joinSep] at h
  | cons l ls ih =>
    cases ls with
    | nil =>
      exact Or.inr ⟨l, List.mem_cons_self _ _, by simpa [joinSep] using h⟩
    | cons l2 ls2 =>
      rw [show joinSep sep (l :: l2 :: ls2)
          = l ++ sep ++ joinSep sep (l2 :: ls2) from rfl] at h
      rcases List.mem_append.mp h with h1 | h1
      · rcases List.mem_append.mp h1 with h2 | h2
        · exact Or.inr ⟨l, List.mem_cons_self _ _, h2⟩
        · exact Or.inl h2
      · rcases ih h1 with h2 | ⟨l3, hl3, h3⟩
        · exact Or.inl h2
        · exact Or.inr ⟨l3, List.mem_cons_of_mem _ hl3, h3⟩

lemma lineBody_eq_cons (cells : List Cell) :
    lineBody cells
      = '|' :: (' ' :: (joinSep [' ', '|', ' '] cells ++ [' ', '|'])) := rfl

lemma lineBody_head? (cells : List Cell) : (lineBody cells).head? = some '|' := rfl

lemma lineBody_getLast? (cells : List Cell) :
    (lineBody cells).getLast? = some '|' := by
  unfold lineBody
  rw [show (([' ', '|'] : List Char))
      = ([' '] : List Char) ++ ['|'] from rfl]
  rw [← List.append_assoc, List.getLast?_concat]

lemma newline_not_mem_lineBody (cells : List Cell) (h : ∀ c ∈ cells, '\n' ∉ c) :
    '\n' ∉ lineBody cells := by
  intro hmem
  unfold lineBody at hmem
  rcases List.mem_append.mp hmem with h1 | h1
  · rcases List.mem_append.mp h1 with h2 | h2
    · exact absurd h2 (by decide)
    · rcases mem_joinSep _ _ _ h2 with h3 | ⟨l, hl, h3⟩
      · exact absurd h3 (by decide)
      · exact h l hl h3
  · exact absurd h1 (by decide)

lemma pipe_not_mem_padCell (c : Cell) (h : '|' ∉ c) : '|' ∉ padCell c := by
  intro hm
  unfold padCell at hm
  rcases List.mem_cons.mp hm with h1 | h1
  · exact absurd h1 (by decide)
  · rcases List.mem_append.mp h1 with h2 | h2
    · exact h h2
    · exact absurd h2 (by decide)

lemma splitOnChar_padded (cells : List Cell) (hne : cells ≠ [])
    (h : ∀ c ∈ cells, '|' ∉ c) :
    splitOnChar '|' (' ' :: (joinSep [' ', '|', ' '] cells ++ [' ', '|']))
      = cells.map padCell ++ [[]] := by
  induction cells with
  | nil => exact absurd rfl hne
  | cons c cs ih =>
    cases cs with
    | nil =>
      have hstr : ' ' :: (joinSep [' ', '|', ' '] [c] ++ [' ', '|'])
          = padCell c ++ ['|'] := by
        simp [joinSep, padCell]
      rw [hstr]
      rw [splitOnChar_append_not_mem '|' _ _
        (pipe_not_mem_padCell c (h c (List.mem_cons_self _ _)))]
      simp [splitOnChar, List.modifyHead]
    | cons c2 cs2 =>
      have hstr : ' ' :: (joinSep [' ', '|', ' '] (c :: c2 :: cs2) ++ [' ', '|'])
          = padCell c
            ++ ('|' :: (' ' :: (joinSep [' ', '|', ' '] (c2 :: cs2) ++ [' ', '|']))) := by
        rw [show joinSep [' ', '|', ' '] (c :: c2 :: cs2)
            = c ++ [' ', '|', ' '] ++ joinSep [' ', '|', ' '] (c2 :: cs2) from rfl]
        simp [padCell]
      rw [hstr]
      rw [splitOnChar_append_not_mem '|' _ _
        (pipe_not_mem_padCell c (h c (List.mem_cons_self _ _)))]
      rw [splitOnChar_cons_sep]
      rw [ih (by simp) (fun x hx => h x (List.mem_cons_of_mem _ hx))]
      simp [List.modifyHead]

lemma splitOnChar_lineBody (cells : List Cell) (hne : cells ≠ [])
    (h : ∀ c ∈ cells, '|' ∉ c) :
    splitOnChar '|' (lineBody cells) = [] :: (cells.map padCell ++ [[]]) := by
  rw [lineBody_eq_cons, splitOnChar_cons_sep, splitOnChar_padded cells hne h]

lemma parseCells_lineBody (cells : List Cell) (hne : cells ≠ [])
    (h : ∀ c ∈ cells, '|' ∉ c) :
    parseCells (lineBody cells) = cells.map jsTrim := by
  unfold parseCells
  rw [splitOnChar_lineBody cells hne h]
  rw [List.map_cons, List.map_append, List.map_map]
  have hmap : List.map (jsTrim ∘ padCell) cells = List.map jsTrim cells :=
    List.map_congr_left (fun c _ => jsTrim_padCell c)
  rw [hmap]
  rw [show jsTrim ([] : List Char) = [] from rfl]
  rw [show List.map jsTrim [([] : List Char)] = [[]] from rfl]
  rw [show stripLeadingEmpty (([] : Cell) :: (List.map jsTrim cells ++ [[]]))
      = List.map jsTrim cells ++ [[]] from rfl]
  unfold stripTrailingEmpty
  rw [List.getLast?_concat]
  simp [List.dropLast_concat]

lemma jsTrim_lineBody (cells : List Cell) :
    jsTrim (lineBody cells) = lineBody cells :=
  jsTrim_eq_self _ '|' '|' (lineBody_head? cells) (by decide)
    (lineBody_getLast? cells) (by decide)

lemma all_sepBodyChar_sepLine (n : Nat) :
    ∀ c ∈ lineBody (sepCells n), sepBodyChar c = true := by
  intro c hc
  unfold lineBody at hc
  rcases List.mem_append.mp hc with h1 | h1
  · rcases List.mem_append.mp h1 with h2 | h2
    · have h3 : c = '|' ∨ c = ' ' := by simpa using h2
      rcases h3 with rfl | rfl <;> decide
    · rcases mem_joinSep _ _ _ h2 with h3 | ⟨l, hl, h3⟩
      · have h4 : c = ' ' ∨ c = '|' ∨ c = ' ' := by simpa using h3
        rcases h4 with rfl | rfl | rfl <;> decide
      · rw [sepCells, List.mem_replicate] at hl
        obtain ⟨-, rfl⟩ := hl
        have h4 : c = '-' := by simpa using h3
        subst h4
        decide
  · have h3 : c = ' ' ∨ c = '|' := by simpa using h1
    rcases h3 with rfl | rfl <;> decide

lemma isSeparatorLine_sepLine (n : Nat) :
    isSeparatorLine (lineBody (sepCells n)) = true := by
  unfold isSeparatorLine
  simp only [jsTrim_lineBody]
  have h1 : (3 ≤ (lineBody (sepCells n)).length) := by
    rw [lineBody_eq_cons]
    simp only [List.length_cons, List.length_append]
    omega
  have h4 : ((lineBody (sepCells n)).drop 1).dropLast.all sepBodyChar = true :=
    List.all_eq_true.mpr (fun c hc =>
      all_sepBodyChar_sepLine n c
        (List.mem_of_mem_drop ((List.dropLast_sublist _).subset hc)))
  rw [lineBody_head?, lineBody_getLast?, h4]
  simp [h1]

lemma lineBody_keep_facts (cells : List Cell) :
    ((lineBody cells).isEmpty || !((lineBody cells).contains '|')) = false := by
  rw [lineBody_eq_cons]
  simp [List.contains_cons]

lemma flatten_map_concat (x : Char) :
    ∀ (ls : List (List Char)), ls ≠ [] →
      (ls.map (fun l => l ++ [x])).flatten = joinSep [x] ls ++ [x]
  | [], h => absurd rfl h
  | [l], _ => by simp [joinSep]
  | l :: l2 :: ls2, _ => by
    rw [List.map_cons, List.flatten_cons,
      flatten_map_concat x (l2 :: ls2) (by simp)]
    rw [show joinSep [x] (l :: l2 :: ls2)
        = l ++ [x] ++ joinSep [x] (l2 :: ls2) from rfl]
    simp [List.append_assoc]

lemma joinSep_head?_pipe (sep : List Char) (l : List Char) (ls : List (List Char))
    (h : l.head? = some '|') : (joinSep sep (l :: ls)).head? = some '|' := by
  cases ls with
  | nil => simpa [joinSep] using h
  | cons l2 ls2 =>
    rw [show joinSep sep (l :: l2 :: ls2)
        = l ++ sep ++ joinSep sep (l2 :: ls2) from rfl]
    cases l with
    | nil => simp at h
    | cons a u =>
      simp only [List.head?_cons, Option.some.injEq] at h
      subst h
      simp

lemma joinSep_getLast?_pipe (sep : List Char) :
    ∀ (ls : List (List Char)), ls ≠ [] → (∀ l ∈ ls, l.getLast? = some '|') →
      (joinSep sep ls).getLast? = some '|'
  | [], h, _ => absurd rfl h
  | [l], _, hl => by simpa [joinSep] using hl l (List.mem_cons_self _ _)
  | l :: l2 :: ls2, _, hl => by
    rw [show joinSep sep (l :: l2 :: ls2)
        = l ++ sep ++ joinSep sep (l2 :: ls2) from rfl]
    have hJ := joinSep_getLast?_pipe sep (l2 :: ls2) (by simp)
      (fun x hx => hl x (List.mem_cons_of_mem _ hx))
    rw [List.append_assoc, List.getLast?_append, List.getLast?_append, hJ]
    rfl

lemma parseLines_map_lineBody :
    ∀ (rs : List (List Cell)) (i : Nat), 2 ≤ i →
      (∀ r ∈ rs, r ≠ [] ∧ ∀ c ∈ r, '|' ∉ c) →
      parseLines i (rs.map lineBody) = rs.map (fun r => r.map jsTrim)
  | [], _, _, _ => by simp [parseLines]
  | r :: rs, i, hi, hr => by
    obtain ⟨hne, hpf⟩ := hr r (List.mem_cons_self _ _)
    have htail : ∀ x ∈ rs, x ≠ [] ∧ ∀ c ∈ x, '|' ∉ c :=
      fun x hx => hr x (List.mem_cons_of_mem _ hx)
    have hi1 : ¬(i = 1) := by omega
    rw [List.map_cons, List.map_cons]
    simp only [parseLines, jsTrim_lineBody, lineBody_keep_facts, Bool.false_eq_true,
      if_false, hi1, decide_False, Bool.false_and]
    rw [parseCells_lineBody r hne hpf,
      parseLines_map_lineBody rs (i + 1) (by omega) htail]

/-- The serialized form of a well-formed table, as the list of its
newline-terminated lines. -/
def tableLines (t : Table) : List (List Char) :=
  lineBody t.header :: lineBody (sepCells t.header.length) :: t.rows.map lineBody

lemma tableToMarkdown_lines (t : Table) (hh : ¬ t.header.length = 0)
    (hr : ∀ r ∈ t.rows, r ≠ []) :
    tableToMarkdown t = ((tableLines t).map (fun l => l ++ ['\n'])).flatten := by
  unfold tableToMarkdown tableLines
  rw [if_neg hh]
  have hbody : t.rows.map (fun r => if r.length = 0 then [] else renderCellsLine r)
      = t.rows.map (fun r => lineBody r ++ ['\n']) :=
    List.map_congr_left (fun r hrm => by
      rw [if_neg (by simp [hr r hrm]), renderCellsLine_eq])
  rw [hbody]
  rw [List.map_cons, List.map_cons, List.flatten_cons, List.flatten_cons,
    List.map_map]
  rw [renderCellsLine_eq, renderCellsLine_eq]
  simp only [List.append_assoc]
  rfl

/-- Claim C1 (amended): for every well-formed table (header length at least 1,
every row the same length as the header) whose cell texts contain no pipe and
no newline character, parsing the serialized text yields exactly the table's
rows with every cell whitespace-trimmed, the header first. -/
theorem roundtrip_parse_serialize (t : Table)
    (hn : 1 ≤ t.header.length)
    (hu : ∀ r ∈ t.rows, r.length = t.header.length)
    (hph : ∀ c ∈ t.header, '|' ∉ c ∧ '\n' ∉ c)
    (hpr : ∀ r ∈ t.rows, ∀ c ∈ r, '|' ∉ c ∧ '\n' ∉ c) :
    markdownToTable (tableToMarkdown t)
      = some (t.header.map jsTrim :: t.rows.map (fun r => r.map jsTrim)) := by
  have hh : ¬ t.header.length = 0 := by omega
  have hhne : t.header ≠ [] := fun h0 => hh (by rw [h0]; rfl)
  have hrne : ∀ r ∈ t.rows, r ≠ [] := by
    intro r hr h0
    have h1 := hu r hr
    rw [h0] at h1
    simp only [List.length_nil] at h1
    omega
  have hlines := tableToMarkdown_lines t hh hrne
  have hLne : tableLines t ≠ [] := by simp [tableLines]
  have hflat := flatten_map_concat '\n' (tableLines t) hLne
  have hnl : ∀ l ∈ tableLines t, '\n' ∉ l := by
    intro l hl
    rcases List.mem_cons.mp hl with rfl | hl2
    · exact newline_not_mem_lineBody _ (fun c hc => (hph c hc).2)
    · rcases List.mem_cons.mp hl2 with rfl | hl3
      · refine newline_not_mem_lineBody _ ?_
        intro c hc
        rw [sepCells, List.mem_replicate] at hc
        obtain ⟨-, rfl⟩ := hc
        decide
      · obtain ⟨r, hrm, rfl⟩ := List.mem_map.mp hl3
        exact newline_not_mem_lineBody _ (fun c hc => (hpr r hrm c hc).2)
  have hlast : ∀ l ∈ tableLines t, l.getLast? = some '|' := by
    intro l hl
    rcases List.mem_cons.mp hl with rfl | hl2
    · exact lineBody_getLast? _
    · rcases List.mem_cons.mp hl2 with rfl | hl3
      · exact lineBody_getLast? _
      · obtain ⟨r, hrm, rfl⟩ := List.mem_map.mp hl3
        exact lineBody_getLast? _
  have hheadJ : (joinSep ['\n'] (tableLines t)).head? = some '|' :=
    joinSep_head?_pipe ['\n'] _ _ (lineBody_head? _)
  have hlastJ : (joinSep ['\n'] (tableLines t)).getLast? = some '|' :=
    joinSep_getLast?_pipe ['\n'] (tableLines t) hLne hlast
  have htrim : jsTrim (tableToMarkdown t) = joinSep ['\n'] (tableLines t) := by
    rw [hlines, hflat]
    exact jsTrim_concat_newline _ hheadJ hlastJ
  have hsplit : splitOnChar '\n' (jsTrim (tableToMarkdown t)) = tableLines t := by
    rw [htrim]
    exact splitOnChar_joinSep '\n' (tableLines t) hLne hnl
  have hlen : ¬ ((tableLines t).length < 2) := by
    simp only [tableLines, List.length_cons]
    omega
  have hparse : parseLines 0 (tableLines t)
      = t.header.map jsTrim :: t.rows.map (fun r => r.map jsTrim) := by
    unfold tableLines
    simp only [parseLines, jsTrim_lineBody, lineBody_keep_facts,
      Bool.false_eq_true, if_false,
      show decide ((0 : Nat) = 1) = false from rfl,
      show decide ((1 : Nat) = 1) = true from rfl,
      isSeparatorLine_sepLine, Bool.false_and, Bool.true_and, if_true]
    rw [parseCells_lineBody t.header hhne (fun c hc => (hph c hc).1)]
    rw [parseLines_map_lineBody t.rows 2 (by omega)
      (fun r hr => ⟨hrne r hr, fun c hc => (hpr r hr c hc).1⟩)]
    simp
  simp only [markdownToTable]
  rw [hsplit, if_neg hlen, hparse]
  simp

/-- A well-formed one-cell table whose single cell contains a pipe. -/
def pipeCellTable : Table := ⟨[['a', '|', 'b']], []⟩

/-- Claim C1 counterexample: `pipeCellTable` is well-formed (header length 1,
no rows), yet parsing its serialization does not give back the table (even up
to whitespace trimming): the pipe inside the cell text is re-read as a cell
boundary, so the parse yields two cells `a` and `b`. -/
theorem roundtrip_fails_on_pipe_cell :
    pipeCellTable.header.length = 1
    ∧ pipeCellTable.rows = []
    ∧ markdownToTable (tableToMarkdown pipeCellTable)
        ≠ some (pipeCellTable.header.map jsTrim
            :: pipeCellTable.rows.map (fun r => r.map jsTrim)) := by
  refine ⟨rfl, rfl, ?_⟩
  decide

/-- A pipe-free, newline-free well-formed table with whitespace to trim. -/
def roundtripTable : Table :=
  ⟨[['A'], [' ', 'B']], [[['1'], ['2', ' ']]]⟩

/-- Witness for C1 (amended) at `roundtripTable`. -/
theorem roundtrip_parse_serialize_witness :
    markdownToTable (tableToMarkdown roundtripTable)
      = some (roundtripTable.header.map jsTrim
          :: roundtripTable.rows.map (fun r => r.map jsTrim)) :=
  roundtrip_parse_serialize roundtripTable (by decide) (by decide)
    (by decide) (by decide)
